import Mathlib

/-!
# Verification of the Bloom-filter engine specification

The repository's four Python scripts drive a Bloom filter through a fixed
demo workload (create, populate, serialize, membership-test).  The filter
engine itself (bit-array sizing, multi-hash probing, insertion, membership
query, binary codec) is supplied by the third-party `pybloom_live` library
and is not part of the repository's sources; the specification defines the
intended engine.  Accordingly the engine below is modelled from the spec,
while the demo scripts' own observable behavior (error swallowing in
serialization, `None` on failed deserialization, the probe-key workload)
is embedded directly from the Python sources.
-/

namespace BloomSpec

/-- Error raised by bit-vector bounds violations (spec §7). -/
inductive BFError where
  | indexOutOfRange
deriving DecidableEq

/-- Errors raised by the Codec (spec §7). -/
inductive CodecError where
  | corruptData
  | unsupportedVersion
  | truncatedData
deriving DecidableEq

/-- Error raised by the sizing policy (spec §7). -/
inductive SizingError where
  | invalidParameter
deriving DecidableEq

/-- Modelled from the spec (§4.2): a seeded, well-distributed 64-bit mix
function over the element's byte representation (an FNV-1a style fold,
with arithmetic taken mod 2^64). -/
def mix64 (seed : Nat) (data : List Nat) : Nat :=
  data.foldl (fun h b => ((h ^^^ b % 256) * 1099511628211) % 2 ^ 64)
    ((14695981039346656037 + seed) % 2 ^ 64)

/-- Modelled from the spec (§4.2): the `i`-th probe index is
`(h1 + i * h2) mod m` (Kirsch–Mitzenmacher double hashing), for
`0 ≤ i < k`. -/
def positions_for (element : List Nat) (k m seedA seedB : Nat) : List Nat :=
  let h1 := mix64 seedA element
  let h2 := mix64 seedB element
  (List.range k).map (fun i => (h1 + i * h2) % m)

/-- Bit `i` of a bit vector (false when out of range). -/
def testBit (bits : List Bool) (i : Nat) : Bool :=
  bits.getD i false

/-- Set bit `i` of a bit vector to 1 (total version; `List.set` is the
identity out of range). -/
def setBit (bits : List Bool) (i : Nat) : List Bool :=
  bits.set i true

/-- Modelled from the spec (§3, §4.4): the Bloom filter state.  `bits`
has `m` entries for a well-formed filter; `insertedCount` is advisory. -/
structure BloomFilter where
  m : Nat
  k : Nat
  seedA : Nat
  seedB : Nat
  insertedCount : Nat
  bits : List Bool
deriving DecidableEq

/-- A validly constructed filter: the bit array has exactly `m` bits and
the sizing produced `m ≥ 1`, `k ≥ 1`. -/
abbrev BloomFilter.wf (f : BloomFilter) : Prop :=
  f.bits.length = f.m ∧ 1 ≤ f.m ∧ 1 ≤ f.k

/-- Modelled from the spec (§4.4 `new`): allocate `m` zero bits with the
given probe count and seeds, `inserted_count = 0`. -/
def newFilter (m k seedA seedB : Nat) : BloomFilter :=
  ⟨m, k, seedA, seedB, 0, List.replicate m false⟩

/-- The probe positions of an element for this filter's configuration. -/
def BloomFilter.positions (f : BloomFilter) (e : List Nat) : List Nat :=
  positions_for e f.k f.m f.seedA f.seedB

/-- Modelled from the spec (§4.4 `insert`): set each of the `k` probe
bits, increment `inserted_count`. -/
def BloomFilter.insert (f : BloomFilter) (e : List Nat) : BloomFilter :=
  { f with bits := (f.positions e).foldl setBit f.bits,
           insertedCount := f.insertedCount + 1 }

/-- Modelled from the spec (§4.4 `contains`): true iff every probe bit is
set. -/
def BloomFilter.contains (f : BloomFilter) (e : List Nat) : Bool :=
  (f.positions e).all (fun p => testBit f.bits p)

/-- Insert a whole list of elements in order. -/
def insertAll (f : BloomFilter) (es : List (List Nat)) : BloomFilter :=
  es.foldl (fun g x => g.insert x) f

/-- Modelled from the spec (§4.3 `set`): bounds-checked bit set, failing
with `IndexOutOfRange` when `i ≥ length_bits`. -/
def setBitE (bits : List Bool) (i : Nat) : Except BFError (List Bool) :=
  if i < bits.length then .ok (bits.set i true) else .error .indexOutOfRange

/-- Modelled from the spec (§4.3 `get`): bounds-checked bit read. -/
def testBitE (bits : List Bool) (i : Nat) : Except BFError Bool :=
  if h : i < bits.length then .ok (bits.get ⟨i, h⟩) else .error .indexOutOfRange

/-- Set every position in the list, propagating bounds errors. -/
def setAll (bits : List Bool) : List Nat → Except BFError (List Bool)
  | [] => .ok bits
  | p :: ps =>
    match setBitE bits p with
    | .error e => .error e
    | .ok bs => setAll bs ps

/-- Read every position in the list and conjoin, propagating bounds
errors. -/
def getAll (bits : List Bool) : List Nat → Except BFError Bool
  | [] => .ok true
  | p :: ps =>
    match testBitE bits p with
    | .error e => .error e
    | .ok b =>
      match getAll bits ps with
      | .error e => .error e
      | .ok r => .ok (b && r)

/-- `insert` with the bit-vector bounds checks made explicit. -/
def BloomFilter.insertE (f : BloomFilter) (e : List Nat) :
    Except BFError BloomFilter :=
  match setAll f.bits (f.positions e) with
  | .error er => .error er
  | .ok bs => .ok { f with bits := bs, insertedCount := f.insertedCount + 1 }

/-- `contains` with the bit-vector bounds checks made explicit. -/
def BloomFilter.containsE (f : BloomFilter) (e : List Nat) :
    Except BFError Bool :=
  getAll f.bits (f.positions e)

/-- A well-formed call against the filter: an insertion or a membership
query. -/
inductive Op where
  | ins (e : List Nat)
  | qry (e : List Nat)

/-- Run a sequence of insert/contains calls, stopping at the first
error. -/
def runOps : BloomFilter → List Op → Except BFError BloomFilter
  | f, [] => .ok f
  | f, .ins e :: rest =>
    match f.insertE e with
    | .error er => .error er
    | .ok g => runOps g rest
  | f, .qry e :: rest =>
    match f.containsE e with
    | .error er => .error er
    | .ok _ => runOps f rest

/-- Little-endian byte encoding of `x` on `n` bytes. -/
def leBytes : Nat → Nat → List Nat
  | 0, _ => []
  | n + 1, x => x % 256 :: leBytes n (x / 256)

/-- Little-endian byte decoding. -/
def readLE : List Nat → Nat
  | [] => 0
  | b :: t => b + 256 * readLE t

/-- Read the `len`-byte little-endian field at byte offset `off`. -/
def readLEField (bytes : List Nat) (off len : Nat) : Nat :=
  readLE ((bytes.drop off).take len)

/-- Modelled from the spec (§6): the fixed 4-byte magic constant
identifying the format. -/
def magicBytes : List Nat := [66, 70, 76, 84]

/-- Modelled from the spec (§6): the current format revision. -/
def formatVersion : Nat := 1

/-- The byte whose bit `r` (LSB-first) is the `r`-th entry of the list. -/
def byteOf (l : List Bool) : Nat :=
  l.foldr (fun b acc => (cond b 1 0) + 2 * acc) 0

/-- Modelled from the spec (§4.3 `to_bytes`): pack the bit array
byte-aligned, bit `i` at byte `i/8`, bit position `i % 8`, LSB-first. -/
def packBits (bits : List Bool) : List Nat :=
  (List.range ((bits.length + 7) / 8)).map
    (fun j => byteOf ((bits.drop (8 * j)).take 8))

/-- Modelled from the spec (§4.3 `from_bytes`): unpack `m` bits from the
byte-packed payload. -/
def unpackBits (m : Nat) (bytes : List Nat) : List Bool :=
  (List.range m).map (fun i => Nat.testBit (bytes.getD (i / 8) 0) (i % 8))

/-- Modelled from the spec (§4.5, §6): header (magic, version, `m`, `k`,
`seed_a`, `seed_b`, `inserted_count`, all little-endian) followed by the
packed bit payload. -/
def serialize (f : BloomFilter) : List Nat :=
  magicBytes ++ leBytes 2 formatVersion ++ leBytes 8 f.m ++ leBytes 4 f.k ++
    leBytes 8 f.seedA ++ leBytes 8 f.seedB ++ leBytes 8 f.insertedCount ++
    packBits f.bits

/-- Modelled from the spec (§4.5 `deserialize`, §5, §6): validate magic
and version, require the full 42-byte header to be present (a partial
write must not deserialize successfully), check the payload length
against `ceil(m/8)`, and reconstruct the filter; fail with
`CorruptData`, `UnsupportedVersion` or `TruncatedData` respectively. -/
def deserialize (bytes : List Nat) : Except CodecError BloomFilter :=
  if bytes.take 4 ≠ magicBytes then .error .corruptData
  else if bytes.length < 42 then .error .truncatedData
  else if formatVersion < readLEField bytes 4 2 then .error .unsupportedVersion
  else
    let m := readLEField bytes 6 8
    let k := readLEField bytes 14 4
    let sa := readLEField bytes 18 8
    let sb := readLEField bytes 26 8
    let cnt := readLEField bytes 34 8
    let payload := bytes.drop 42
    if payload.length ≠ (m + 7) / 8 then .error .truncatedData
    else .ok ⟨m, k, sa, sb, cnt, unpackBits m payload⟩

/-- Modelled from the spec (§4.1): `m = ceil(-(n·ln p)/(ln 2)^2)`,
rounded up to at least 1 bit. -/
noncomputable def m_of (n : Nat) (p : ℚ) : Nat :=
  max 1 (Int.toNat ⌈(-((n : ℝ) * Real.log (p : ℝ))) / (Real.log 2) ^ 2⌉)

/-- Modelled from the spec (§4.1): `k = round((m/n)·ln 2)`, clamped to
`≥ 1`. -/
noncomputable def k_of (n : Nat) (p : ℚ) : Nat :=
  max 1 (Int.toNat (round (((m_of n p : ℝ) / (n : ℝ)) * Real.log 2)))

/-- Modelled from the spec (§4.1 `size_for`): fails with
`InvalidParameter` if `n = 0` or `p` is outside `(0, 1)`; otherwise
returns `(m, k)` per the closed forms. -/
noncomputable def size_for (n : Nat) (p : ℚ) :
    Except SizingError (Nat × Nat) :=
  if 1 ≤ n ∧ 0 < p ∧ p < 1 then .ok (m_of n p, k_of n p)
  else .error .invalidParameter

end BloomSpec

namespace DeepSeekModel

/-- The outcome of the underlying file read attempted by a demo
function: success with a value, or an `IOError` with its message. -/
inductive FileReadResult (α : Type) where
  | ok (v : α)
  | ioError (msg : String)

/-- Embedded from `BloomFilterExample_DeepSeek.py`, lines 48-63:
`deserialize_bloom_filter` returns the loaded filter, and on `IOError`
prints `Error deserializing Bloom filter: ...` to standard output and
returns `None`.  The result is the returned optional filter paired with
the lines printed to standard output. -/
def deserialize_bloom_filter {α : Type} (r : FileReadResult α) :
    Option α × List String :=
  match r with
  | .ok f => (some f, [])
  | .ioError e => (none, ["Error deserializing Bloom filter: " ++ e])

end DeepSeekModel

namespace GeminiModel

/-- The outcome of the underlying pickle write: success, or an exception
with its message. -/
inductive WriteResult where
  | ok
  | err (msg : String)

/-- Embedded from `BloomFilterExample_Gemini.py`, lines 57-68:
`serialize_bloom_filter` catches any exception from the write, prints
`Error serializing Bloom filter: ...` to standard error, and returns
normally (`None`) in both cases.  The result is the returned value
paired with the lines printed to standard error. -/
def serialize_bloom_filter (w : WriteResult) : Unit × List String :=
  match w with
  | .ok => ((), [])
  | .err e => ((), ["Error serializing Bloom filter: " ++ e])

/-- Embedded from `BloomFilterExample_Gemini.py`, lines 121-123 of
`main`: call `serialize_bloom_filter`, then unconditionally print the
success message to standard output.  The result is (return value of the
serialize call, stdout lines, stderr lines). -/
def mainSerializeStep (w : WriteResult) : Unit × List String × List String :=
  let r := serialize_bloom_filter w
  (r.fst, ["Bloom filter serialized to: bloomfilter.bin"], r.snd)

end GeminiModel

namespace DemoModel

/-- Embedded from `BloomFilterExample-chatgpt.py`, line 100: the probe
key `f"element10000000{tries}"` used by the false-positive loop. -/
def testKey (tries : Nat) : String :=
  "element10000000" ++ Nat.repr tries

/-- Embedded from `BloomFilterExample-chatgpt.py`, line 51: the inserted
key `f"element{i}"`. -/
def insertedKey (i : Nat) : String :=
  "element" ++ Nat.repr i

end DemoModel

namespace BloomSpec

lemma testBit_setBit (bits : List Bool) (p i : Nat) :
    testBit (setBit bits p) i =
      (testBit bits i || (decide (i = p) && decide (i < bits.length))) := by
  unfold testBit setBit
  rw [List.getD_eq_getElem?_getD, List.getD_eq_getElem?_getD, List.getElem?_set]
  by_cases hip : p = i
  · subst hip
    by_cases hlt : p < bits.length
    · simp [hlt]
    · rw [if_pos rfl, if_neg hlt, List.getElem?_eq_none (Nat.le_of_not_lt hlt)]
      simp [hlt]
  · rw [if_neg hip]
    have hip2 : i ≠ p := fun h => hip h.symm
    simp [hip2]

lemma length_setBit (bits : List Bool) (p : Nat) :
    (setBit bits p).length = bits.length :=
  List.length_set bits p true

lemma length_foldl_setBit (ps : List Nat) (bits : List Bool) :
    (ps.foldl setBit bits).length = bits.length := by
  induction ps generalizing bits with
  | nil => rfl
  | cons p ps ih => rw [List.foldl_cons, ih, length_setBit]

lemma testBit_foldl_setBit (ps : List Nat) (bits : List Bool) (i : Nat) :
    testBit (ps.foldl setBit bits) i =
      (testBit bits i || (decide (i ∈ ps) && decide (i < bits.length))) := by
  induction ps generalizing bits with
  | nil => simp
  | cons p ps ih =>
    rw [List.foldl_cons, ih, testBit_setBit, length_setBit]
    by_cases hm : i ∈ ps <;> by_cases hp : i = p <;>
      by_cases hl : i < bits.length <;> simp_all [List.mem_cons]

lemma eq_of_testBit_eq (l₁ l₂ : List Bool) (hlen : l₁.length = l₂.length)
    (h : ∀ i, testBit l₁ i = testBit l₂ i) : l₁ = l₂ := by
  apply List.ext_getElem?
  intro i
  rcases Nat.lt_or_ge i l₁.length with hlt | hge
  · have hlt2 : i < l₂.length := hlen ▸ hlt
    have := h i
    unfold testBit at this
    rw [List.getD_eq_getElem l₁ false hlt, List.getD_eq_getElem l₂ false hlt2] at this
    rw [List.getElem?_eq_getElem hlt, List.getElem?_eq_getElem hlt2, this]
  · rw [List.getElem?_eq_none hge, List.getElem?_eq_none (hlen ▸ hge)]

lemma positions_lt {m : Nat} (hm : 1 ≤ m) (e : List Nat) (k sa sb : Nat) :
    ∀ p ∈ positions_for e k m sa sb, p < m := by
  intro p hp
  unfold positions_for at hp
  simp only [List.mem_map, List.mem_range] at hp
  obtain ⟨i, _, rfl⟩ := hp
  exact Nat.mod_lt _ hm

lemma positions_length (f : BloomFilter) (e : List Nat) :
    (f.positions e).length = f.k := by
  unfold BloomFilter.positions positions_for
  rw [List.length_map, List.length_range]

lemma insert_m (f : BloomFilter) (e : List Nat) : (f.insert e).m = f.m := rfl

lemma insert_positions (f : BloomFilter) (e x : List Nat) :
    (f.insert x).positions e = f.positions e := rfl

lemma insert_wf {f : BloomFilter} (hwf : f.wf) (e : List Nat) :
    (f.insert e).wf := by
  obtain ⟨hlen, hm, hk⟩ := hwf
  refine ⟨?_, hm, hk⟩
  show ((f.positions e).foldl setBit f.bits).length = f.m
  rw [length_foldl_setBit, hlen]

lemma testBit_insert_mono {f : BloomFilter} (e : List Nat) (i : Nat)
    (h : testBit f.bits i = true) : testBit (f.insert e).bits i = true := by
  show testBit ((f.positions e).foldl setBit f.bits) i = true
  rw [testBit_foldl_setBit, h, Bool.true_or]

lemma contains_insert_self {f : BloomFilter} (hwf : f.wf) (e : List Nat) :
    (f.insert e).contains e = true := by
  obtain ⟨hlen, hm, _⟩ := hwf
  unfold BloomFilter.contains
  rw [List.all_eq_true]
  intro p hp
  rw [insert_positions] at hp
  show testBit ((f.positions e).foldl setBit f.bits) p = true
  rw [testBit_foldl_setBit]
  have hplt : p < f.bits.length := by
    rw [hlen]; exact positions_lt hm e f.k f.seedA f.seedB p hp
  simp [hp, hplt]

lemma leBytes_length (n x : Nat) : (leBytes n x).length = n := by
  induction n generalizing x with
  | zero => rfl
  | succ n ih => simp [leBytes, ih]

lemma readLE_leBytes (n x : Nat) : readLE (leBytes n x) = x % 256 ^ n := by
  induction n generalizing x with
  | zero => simp [leBytes, readLE, Nat.mod_one]
  | succ n ih =>
    rw [show leBytes (n + 1) x = x % 256 :: leBytes n (x / 256) from rfl]
    rw [show readLE (x % 256 :: leBytes n (x / 256)) =
      x % 256 + 256 * readLE (leBytes n (x / 256)) from rfl]
    rw [ih, pow_succ', Nat.mod_mul]

lemma readLEField_at (pre mid post : List Nat) (w : Nat)
    (hmid : mid.length = w) :
    readLEField (pre ++ (mid ++ post)) pre.length w = readLE mid := by
  unfold readLEField
  rw [List.drop_left' rfl, List.take_left' hmid]

lemma testBit_of_le {l : List Bool} {i : Nat} (h : l.length ≤ i) :
    testBit l i = false := by
  unfold testBit
  rw [List.getD_eq_getElem?_getD, List.getElem?_eq_none h]
  rfl

lemma byteOf_testBit (l : List Bool) (r : Nat) :
    Nat.testBit (byteOf l) r = l.getD r false := by
  induction l generalizing r with
  | nil => simp [byteOf]
  | cons b t ih =>
    have hb : byteOf (b :: t) = (cond b 1 0) + 2 * byteOf t := rfl
    cases r with
    | zero =>
      rw [hb, Nat.testBit_zero, Nat.add_mul_mod_self_left]
      cases b <;> simp
    | succ r =>
      rw [hb, Nat.testBit_succ,
        Nat.add_mul_div_left _ _ (by norm_num : (0:Nat) < 2)]
      have hc : (cond b 1 0) / 2 = 0 := by cases b <;> rfl
      rw [hc, Nat.zero_add, ih]
      rfl

lemma getD_map_range {α : Type} (g : Nat → α) (n j : Nat) (d : α)
    (h : j < n) : ((List.range n).map g).getD j d = g j := by
  rw [List.getD_eq_getElem?_getD, List.getElem?_map, List.getElem?_range h]
  rfl

lemma length_unpackBits (m : Nat) (bytes : List Nat) :
    (unpackBits m bytes).length = m := by
  unfold unpackBits
  rw [List.length_map, List.length_range]

lemma unpack_pack (bits : List Bool) :
    unpackBits bits.length (packBits bits) = bits := by
  apply eq_of_testBit_eq
  · rw [length_unpackBits]
  intro i
  rcases Nat.lt_or_ge i bits.length with hlt | hge
  · have hu : testBit (unpackBits bits.length (packBits bits)) i =
        Nat.testBit ((packBits bits).getD (i / 8) 0) (i % 8) := by
      unfold unpackBits testBit
      exact getD_map_range _ _ _ _ hlt
    have hj : i / 8 < (bits.length + 7) / 8 := by omega
    have hbyte : (packBits bits).getD (i / 8) 0 =
        byteOf ((bits.drop (8 * (i / 8))).take 8) := by
      unfold packBits
      exact getD_map_range _ _ _ _ hj
    rw [hu, hbyte, byteOf_testBit]
    rw [List.getD_eq_getElem?_getD, List.getElem?_take,
      if_pos (Nat.mod_lt _ (by norm_num)), List.getElem?_drop]
    have hi : 8 * (i / 8) + i % 8 = i := by omega
    rw [hi]
    unfold testBit
    rw [List.getD_eq_getElem?_getD]
  · rw [testBit_of_le hge, testBit_of_le (by rw [length_unpackBits]; exact hge)]

lemma serialize_take4 (f : BloomFilter) :
    (serialize f).take 4 = magicBytes := by
  have h := @List.take_left' Nat magicBytes
    (leBytes 2 formatVersion ++ (leBytes 8 f.m ++ (leBytes 4 f.k ++
      (leBytes 8 f.seedA ++ (leBytes 8 f.seedB ++
        (leBytes 8 f.insertedCount ++ packBits f.bits))))))
    4 rfl
  calc (serialize f).take 4
      = (magicBytes ++ (leBytes 2 formatVersion ++ (leBytes 8 f.m ++
          (leBytes 4 f.k ++ (leBytes 8 f.seedA ++ (leBytes 8 f.seedB ++
            (leBytes 8 f.insertedCount ++ packBits f.bits))))))).take 4 := by
        simp [serialize, List.append_assoc]
    _ = magicBytes := h

lemma serialize_field_ver (f : BloomFilter) :
    readLEField (serialize f) 4 2 = formatVersion % 256 ^ 2 := by
  have h := readLEField_at magicBytes (leBytes 2 formatVersion)
    (leBytes 8 f.m ++ (leBytes 4 f.k ++ (leBytes 8 f.seedA ++
      (leBytes 8 f.seedB ++ (leBytes 8 f.insertedCount ++ packBits f.bits)))))
    2 (leBytes_length 2 formatVersion)
  rw [readLE_leBytes] at h
  calc readLEField (serialize f) 4 2
      = readLEField (magicBytes ++ (leBytes 2 formatVersion ++ (leBytes 8 f.m ++
          (leBytes 4 f.k ++ (leBytes 8 f.seedA ++ (leBytes 8 f.seedB ++
            (leBytes 8 f.insertedCount ++ packBits f.bits)))))))
          magicBytes.length 2 := by
        simp [serialize, List.append_assoc, magicBytes]
    _ = formatVersion % 256 ^ 2 := h

lemma serialize_field_m (f : BloomFilter) :
    readLEField (serialize f) 6 8 = f.m % 256 ^ 8 := by
  have h := readLEField_at (magicBytes ++ leBytes 2 formatVersion)
    (leBytes 8 f.m)
    (leBytes 4 f.k ++ (leBytes 8 f.seedA ++
      (leBytes 8 f.seedB ++ (leBytes 8 f.insertedCount ++ packBits f.bits))))
    8 (leBytes_length 8 f.m)
  rw [readLE_leBytes] at h
  have hpre : (magicBytes ++ leBytes 2 formatVersion).length = 6 := by
    simp [magicBytes, leBytes_length]
  rw [hpre] at h
  calc readLEField (serialize f) 6 8
      = readLEField ((magicBytes ++ leBytes 2 formatVersion) ++
          (leBytes 8 f.m ++ (leBytes 4 f.k ++ (leBytes 8 f.seedA ++
            (leBytes 8 f.seedB ++ (leBytes 8 f.insertedCount ++
              packBits f.bits)))))) 6 8 := by
        simp [serialize, List.append_assoc]
    _ = f.m % 256 ^ 8 := h

lemma serialize_field_k (f : BloomFilter) :
    readLEField (serialize f) 14 4 = f.k % 256 ^ 4 := by
  have h := readLEField_at
    ((magicBytes ++ leBytes 2 formatVersion) ++ leBytes 8 f.m)
    (leBytes 4 f.k)
    (leBytes 8 f.seedA ++
      (leBytes 8 f.seedB ++ (leBytes 8 f.insertedCount ++ packBits f.bits)))
    4 (leBytes_length 4 f.k)
  rw [readLE_leBytes] at h
  have hpre : ((magicBytes ++ leBytes 2 formatVersion) ++
      leBytes 8 f.m).length = 14 := by
    simp [magicBytes, leBytes_length]
  rw [hpre] at h
  calc readLEField (serialize f) 14 4
      = readLEField (((magicBytes ++ leBytes 2 formatVersion) ++
          leBytes 8 f.m) ++ (leBytes 4 f.k ++ (leBytes 8 f.seedA ++
            (leBytes 8 f.seedB ++ (leBytes 8 f.insertedCount ++
              packBits f.bits))))) 14 4 := by
        simp [serialize, List.append_assoc]
    _ = f.k % 256 ^ 4 := h

lemma serialize_field_seedA (f : BloomFilter) :
    readLEField (serialize f) 18 8 = f.seedA % 256 ^ 8 := by
  have h := readLEField_at
    (((magicBytes ++ leBytes 2 formatVersion) ++ leBytes 8 f.m) ++
      leBytes 4 f.k)
    (leBytes 8 f.seedA)
    (leBytes 8 f.seedB ++ (leBytes 8 f.insertedCount ++ packBits f.bits))
    8 (leBytes_length 8 f.seedA)
  rw [readLE_leBytes] at h
  have hpre : ((((magicBytes ++ leBytes 2 formatVersion) ++ leBytes 8 f.m) ++
      leBytes 4 f.k)).length = 18 := by
    simp [magicBytes, leBytes_length]
  rw [hpre] at h
  calc readLEField (serialize f) 18 8
      = readLEField ((((magicBytes ++ leBytes 2 formatVersion) ++
          leBytes 8 f.m) ++ leBytes 4 f.k) ++ (leBytes 8 f.seedA ++
            (leBytes 8 f.seedB ++ (leBytes 8 f.insertedCount ++
              packBits f.bits)))) 18 8 := by
        simp [serialize, List.append_assoc]
    _ = f.seedA % 256 ^ 8 := h

lemma serialize_field_seedB (f : BloomFilter) :
    readLEField (serialize f) 26 8 = f.seedB % 256 ^ 8 := by
  have h := readLEField_at
    ((((magicBytes ++ leBytes 2 formatVersion) ++ leBytes 8 f.m) ++
      leBytes 4 f.k) ++ leBytes 8 f.seedA)
    (leBytes 8 f.seedB)
    (leBytes 8 f.insertedCount ++ packBits f.bits)
    8 (leBytes_length 8 f.seedB)
  rw [readLE_leBytes] at h
  have hpre : (((((magicBytes ++ leBytes 2 formatVersion) ++ leBytes 8 f.m) ++
      leBytes 4 f.k) ++ leBytes 8 f.seedA)).length = 26 := by
    simp [magicBytes, leBytes_length]
  rw [hpre] at h
  calc readLEField (serialize f) 26 8
      = readLEField (((((magicBytes ++ leBytes 2 formatVersion) ++
          leBytes 8 f.m) ++ leBytes 4 f.k) ++ leBytes 8 f.seedA) ++
            (leBytes 8 f.seedB ++ (leBytes 8 f.insertedCount ++
              packBits f.bits))) 26 8 := by
        simp [serialize, List.append_assoc]
    _ = f.seedB % 256 ^ 8 := h

lemma serialize_field_count (f : BloomFilter) :
    readLEField (serialize f) 34 8 = f.insertedCount % 256 ^ 8 := by
  have h := readLEField_at
    (((((magicBytes ++ leBytes 2 formatVersion) ++ leBytes 8 f.m) ++
      leBytes 4 f.k) ++ leBytes 8 f.seedA) ++ leBytes 8 f.seedB)
    (leBytes 8 f.insertedCount)
    (packBits f.bits)
    8 (leBytes_length 8 f.insertedCount)
  rw [readLE_leBytes] at h
  have hpre : ((((((magicBytes ++ leBytes 2 formatVersion) ++ leBytes 8 f.m) ++
      leBytes 4 f.k) ++ leBytes 8 f.seedA) ++ leBytes 8 f.seedB)).length = 34 := by
    simp [magicBytes, leBytes_length]
  rw [hpre] at h
  calc readLEField (serialize f) 34 8
      = readLEField ((((((magicBytes ++ leBytes 2 formatVersion) ++
          leBytes 8 f.m) ++ leBytes 4 f.k) ++ leBytes 8 f.seedA) ++
            leBytes 8 f.seedB) ++ (leBytes 8 f.insertedCount ++
              packBits f.bits)) 34 8 := by
        simp [serialize, List.append_assoc]
    _ = f.insertedCount % 256 ^ 8 := h

lemma serialize_payload (f : BloomFilter) :
    (serialize f).drop 42 = packBits f.bits := by
  unfold serialize
  exact List.drop_left' (by simp [magicBytes, leBytes_length])

lemma length_packBits (bits : List Bool) :
    (packBits bits).length = (bits.length + 7) / 8 := by
  unfold packBits
  rw [List.length_map, List.length_range]

lemma serialize_length_ge (f : BloomFilter) : 42 ≤ (serialize f).length := by
  unfold serialize
  simp only [List.length_append, leBytes_length, magicBytes,
    List.length_cons, List.length_nil]
  omega

lemma contains_insert_mono {f : BloomFilter} (e x : List Nat)
    (h : f.contains e = true) : (f.insert x).contains e = true := by
  unfold BloomFilter.contains at h ⊢
  rw [List.all_eq_true] at h ⊢
  intro p hp
  rw [insert_positions] at hp
  exact testBit_insert_mono x p (h p hp)

end BloomSpec


namespace BloomSpec

lemma setAll_ok (ps : List Nat) (bits : List Bool)
    (h : ∀ p ∈ ps, p < bits.length) :
    setAll bits ps = .ok (ps.foldl setBit bits) := by
  induction ps generalizing bits with
  | nil => rfl
  | cons p ps ih =>
    have hp : p < bits.length := h p (List.mem_cons_self p ps)
    have hstep : setBitE bits p = .ok (bits.set p true) := if_pos hp
    show (match setBitE bits p with
      | Except.error e => Except.error e
      | Except.ok bs => setAll bs ps) = Except.ok ((p :: ps).foldl setBit bits)
    rw [hstep, List.foldl_cons]
    exact ih (setBit bits p) (fun q hq => by
      rw [length_setBit]; exact h q (List.mem_cons_of_mem p hq))

lemma getAll_ok (ps : List Nat) (bits : List Bool)
    (h : ∀ p ∈ ps, p < bits.length) :
    getAll bits ps = .ok (ps.all (fun p => testBit bits p)) := by
  induction ps with
  | nil => rfl
  | cons p ps ih =>
    have hp : p < bits.length := h p (List.mem_cons_self p ps)
    have hstep : testBitE bits p = .ok (bits.get ⟨p, hp⟩) := dif_pos hp
    show (match testBitE bits p with
      | Except.error e => Except.error e
      | Except.ok b =>
        match getAll bits ps with
        | Except.error e => Except.error e
        | Except.ok r => Except.ok (b && r)) =
      Except.ok ((p :: ps).all (fun q => testBit bits q))
    rw [hstep, ih (fun q hq => h q (List.mem_cons_of_mem p hq))]
    have hget : bits.get ⟨p, hp⟩ = testBit bits p := by
      unfold testBit
      rw [List.getD_eq_getElem bits false hp]
      rfl
    rw [List.all_cons, hget]

lemma positions_lt_bits {f : BloomFilter} (hwf : f.wf) (e : List Nat) :
    ∀ p ∈ f.positions e, p < f.bits.length := by
  obtain ⟨hlen, hm, _⟩ := hwf
  intro p hp
  rw [hlen]
  exact positions_lt hm e f.k f.seedA f.seedB p hp

lemma insertE_eq {f : BloomFilter} (hwf : f.wf) (e : List Nat) :
    f.insertE e = .ok (f.insert e) := by
  unfold BloomFilter.insertE
  rw [setAll_ok _ _ (positions_lt_bits hwf e)]
  rfl

lemma containsE_eq {f : BloomFilter} (hwf : f.wf) (e : List Nat) :
    f.containsE e = .ok (f.contains e) := by
  unfold BloomFilter.containsE BloomFilter.contains
  exact getAll_ok _ _ (positions_lt_bits hwf e)

lemma runOps_ok {f : BloomFilter} (hwf : f.wf) (ops : List Op) :
    ∃ g, runOps f ops = .ok g ∧ g.wf := by
  induction ops generalizing f with
  | nil => exact ⟨f, rfl, hwf⟩
  | cons op rest ih =>
    cases op with
    | ins e =>
      have hstep : runOps f (.ins e :: rest) = runOps (f.insert e) rest := by
        show (match f.insertE e with
          | Except.error er => Except.error er
          | Except.ok g => runOps g rest) = runOps (f.insert e) rest
        rw [insertE_eq hwf e]
      rw [hstep]
      exact ih (insert_wf hwf e)
    | qry e =>
      have hstep : runOps f (.qry e :: rest) = runOps f rest := by
        show (match f.containsE e with
          | Except.error er => Except.error er
          | Except.ok _ => runOps f rest) = runOps f rest
        rw [containsE_eq hwf e]
      rw [hstep]
      exact ih hwf

lemma deserialize_serialize (f : BloomFilter)
    (hlen : f.bits.length = f.m) (hm : f.m < 2 ^ 64) (hk : f.k < 2 ^ 32)
    (hsa : f.seedA < 2 ^ 64) (hsb : f.seedB < 2 ^ 64)
    (hcnt : f.insertedCount < 2 ^ 64) :
    deserialize (serialize f) = .ok f := by
  have h64 : (256 : Nat) ^ 8 = 2 ^ 64 := by norm_num
  have h32 : (256 : Nat) ^ 4 = 2 ^ 32 := by norm_num
  have hm' : f.m % 256 ^ 8 = f.m := by rw [h64]; exact Nat.mod_eq_of_lt hm
  have hk' : f.k % 256 ^ 4 = f.k := by rw [h32]; exact Nat.mod_eq_of_lt hk
  have hsa' : f.seedA % 256 ^ 8 = f.seedA := by
    rw [h64]; exact Nat.mod_eq_of_lt hsa
  have hsb' : f.seedB % 256 ^ 8 = f.seedB := by
    rw [h64]; exact Nat.mod_eq_of_lt hsb
  have hcnt' : f.insertedCount % 256 ^ 8 = f.insertedCount := by
    rw [h64]; exact Nat.mod_eq_of_lt hcnt
  have hbits : unpackBits f.m (packBits f.bits) = f.bits := by
    rw [← hlen]; exact unpack_pack f.bits
  unfold deserialize
  rw [serialize_take4, if_neg (by simp),
    if_neg (Nat.not_lt.mpr (serialize_length_ge f)), serialize_field_ver,
    if_neg (by norm_num [formatVersion])]
  simp only [serialize_field_m, serialize_field_k, serialize_field_seedA,
    serialize_field_seedB, serialize_field_count, hm', hk', hsa', hsb', hcnt',
    serialize_payload, length_packBits, hlen, hbits]
  rw [if_neg (by simp)]

lemma deserialize_bad_magic (bytes : List Nat)
    (h : bytes.take 4 ≠ magicBytes) :
    deserialize bytes = .error .corruptData := by
  unfold deserialize
  rw [if_pos h]

lemma deserialize_ok_shape (bytes : List Nat) (f : BloomFilter)
    (h : deserialize bytes = .ok f) :
    bytes.take 4 = magicBytes ∧
      42 ≤ bytes.length ∧
      readLEField bytes 4 2 ≤ formatVersion ∧
      (bytes.drop 42).length = (readLEField bytes 6 8 + 7) / 8 := by
  unfold deserialize at h
  split_ifs at h with h1 h2 h3
  dsimp only [] at h
  split_ifs at h with h4
  · exact ⟨not_not.mp h1, Nat.le_of_not_lt h2, Nat.le_of_not_lt h3,
      not_not.mp h4⟩


end BloomSpec
namespace DemoModel

lemma toDigitsCore_len_ge (f : Nat) :
    ∀ (n : Nat) (l : List Char),
      l.length ≤ (Nat.toDigitsCore 10 f n l).length := by
  induction f with
  | zero => intro n l; exact Nat.le_refl _
  | succ f ih =>
    intro n l
    rw [show Nat.toDigitsCore 10 (f + 1) n l =
      if n / 10 = 0 then Nat.digitChar (n % 10) :: l
      else Nat.toDigitsCore 10 f (n / 10) (Nat.digitChar (n % 10) :: l)
      from rfl]
    split_ifs
    · exact Nat.le_succ _
    · calc l.length ≤ (Nat.digitChar (n % 10) :: l).length := Nat.le_succ _
        _ ≤ _ := ih (n / 10) (Nat.digitChar (n % 10) :: l)

lemma repr_len_pos (n : Nat) : 1 ≤ (Nat.repr n).length := by
  rw [show Nat.repr n = (Nat.toDigitsCore 10 (n + 1) n []).asString from rfl,
    List.length_asString]
  rw [show Nat.toDigitsCore 10 (n + 1) n [] =
    if n / 10 = 0 then Nat.digitChar (n % 10) :: []
    else Nat.toDigitsCore 10 n (n / 10) (Nat.digitChar (n % 10) :: [])
    from rfl]
  split_ifs
  · exact Nat.le_refl _
  · exact toDigitsCore_len_ge n (n / 10) (Nat.digitChar (n % 10) :: [])

end DemoModel

namespace BloomSpec

lemma contains_insertAll_mono (es : List (List Nat)) (f : BloomFilter)
    (e : List Nat) (h : f.contains e = true) :
    (insertAll f es).contains e = true := by
  induction es generalizing f with
  | nil => exact h
  | cons x es ih => exact ih (f.insert x) (contains_insert_mono e x h)

/-- C1: for every element `e` and every validly constructed filter, after
`insert(e)`, `contains(e)` returns true, regardless of any sequence of
subsequent insertions of other elements. -/
theorem no_false_negatives (f : BloomFilter) (hwf : f.wf) (e : List Nat)
    (rest : List (List Nat)) :
    (insertAll (f.insert e) rest).contains e = true :=
  contains_insertAll_mono rest (f.insert e) e (contains_insert_self hwf e)

theorem no_false_negatives_witness :
    (newFilter 8 2 3 5).wf ∧
      (insertAll ((newFilter 8 2 3 5).insert [1, 2]) [[3], [4, 5]]).contains
        [1, 2] = true :=
  ⟨by decide,
    no_false_negatives (newFilter 8 2 3 5) (by decide) [1, 2] [[3], [4, 5]]⟩

/-- C2: for every filter state within the u64 field bounds of the wire
format, `deserialize (serialize f) = f`, and in particular the
reconstructed filter answers `contains` identically to `f` for every
element. -/
theorem serialize_roundtrip (f : BloomFilter) (hlen : f.bits.length = f.m)
    (hm : f.m < 2 ^ 64) (hk : f.k < 2 ^ 32) (hsa : f.seedA < 2 ^ 64)
    (hsb : f.seedB < 2 ^ 64) (hcnt : f.insertedCount < 2 ^ 64) :
    deserialize (serialize f) = .ok f ∧
      ∀ g, deserialize (serialize f) = .ok g →
        ∀ e, g.contains e = f.contains e := by
  have h := deserialize_serialize f hlen hm hk hsa hsb hcnt
  refine ⟨h, ?_⟩
  intro g hg e
  rw [h] at hg
  obtain rfl : f = g := by injection hg
  rfl

theorem serialize_roundtrip_witness :
    (newFilter 8 2 3 5).bits.length = (newFilter 8 2 3 5).m ∧
      deserialize (serialize (newFilter 8 2 3 5)) = .ok (newFilter 8 2 3 5) :=
  ⟨by decide,
    (serialize_roundtrip (newFilter 8 2 3 5) (by decide) (by decide)
      (by decide) (by decide) (by decide) (by decide)).1⟩

/-- C3: no well-formed `contains` or `insert` call on a validly
constructed filter ever raises: running any sequence of insert and
contains calls never produces an error. -/
theorem ops_never_fail (f : BloomFilter) (hwf : f.wf) (ops : List Op) :
    (runOps f ops).isOk = true := by
  obtain ⟨g, hg, _⟩ := runOps_ok hwf ops
  rw [hg]
  rfl

theorem ops_never_fail_witness :
    (newFilter 8 2 3 5).wf ∧
      (runOps (newFilter 8 2 3 5)
        [Op.ins [1], Op.qry [1], Op.ins [2], Op.qry [9]]).isOk = true :=
  ⟨by decide,
    ops_never_fail (newFilter 8 2 3 5) (by decide)
      [Op.ins [1], Op.qry [1], Op.ins [2], Op.qry [9]]⟩

/-- C4: sizing fails with `InvalidParameter` exactly when the parameters
are bad (`n = 0` or `p` outside the open interval `(0, 1)`), and
succeeds, producing a filter sizing, exactly when `n ≥ 1` and
`0 < p < 1`. -/
theorem size_for_invalid_iff (n : Nat) (p : ℚ) :
    (size_for n p = .error .invalidParameter ↔
      ¬(1 ≤ n ∧ 0 < p ∧ p < 1)) ∧
    ((∃ mk, size_for n p = .ok mk) ↔ (1 ≤ n ∧ 0 < p ∧ p < 1)) := by
  by_cases h : 1 ≤ n ∧ 0 < p ∧ p < 1 <;> simp [size_for, h]

/-- C5: for every `n ≥ 1` and `0 < p < 1` the sizing satisfies the
stated closed forms: `m = ceil(-(n ln p)/(ln 2)^2)` (at least 1) and
`k = round((m/n) ln 2)` clamped to at least 1. -/
theorem size_for_closed_form (n : Nat) (p : ℚ) (hn : 1 ≤ n) (hp0 : 0 < p)
    (hp1 : p < 1) :
    size_for n p = .ok
      (max 1 (Int.toNat ⌈(-((n : ℝ) * Real.log (p : ℝ))) /
        (Real.log 2) ^ 2⌉),
       max 1 (Int.toNat (round
        (((max 1 (Int.toNat ⌈(-((n : ℝ) * Real.log (p : ℝ))) /
          (Real.log 2) ^ 2⌉) : Nat) : ℝ) / (n : ℝ) * Real.log 2)))) := by
  unfold size_for
  rw [if_pos ⟨hn, hp0, hp1⟩]
  rfl

theorem size_for_closed_form_witness : (size_for 2 (1 / 2)).isOk = true := by
  rw [size_for_closed_form 2 (1 / 2) (by norm_num) (by norm_num) (by norm_num)]
  rfl

/-- C6: `insert` computes exactly `k` probe positions and sets each of
them, increments `inserted_count` by one, only ever turns bits on
(never 1→0), and inserting the same element a second time changes no
bit. -/
theorem insert_effects (f : BloomFilter) (hwf : f.wf) (e : List Nat) :
    (f.positions e).length = f.k ∧
    (f.insert e).insertedCount = f.insertedCount + 1 ∧
    (∀ p ∈ f.positions e, testBit (f.insert e).bits p = true) ∧
    (∀ i, testBit f.bits i = true → testBit (f.insert e).bits i = true) ∧
    ((f.insert e).insert e).bits = (f.insert e).bits := by
  obtain ⟨hlen, hm, hk⟩ := hwf
  have hset : ∀ p ∈ f.positions e, testBit (f.insert e).bits p = true := by
    intro p hp
    show testBit ((f.positions e).foldl setBit f.bits) p = true
    rw [testBit_foldl_setBit]
    have hplt : p < f.bits.length := by
      rw [hlen]; exact positions_lt hm e f.k f.seedA f.seedB p hp
    simp [hp, hplt]
  refine ⟨positions_length f e, rfl, hset,
    fun i h => testBit_insert_mono e i h, ?_⟩
  have hL : (f.insert e).bits.length = f.bits.length :=
    length_foldl_setBit (f.positions e) f.bits
  apply eq_of_testBit_eq
  · show (((f.insert e).positions e).foldl setBit (f.insert e).bits).length = _
    rw [length_foldl_setBit]
  · intro i
    show testBit (((f.insert e).positions e).foldl setBit (f.insert e).bits) i
      = testBit (f.insert e).bits i
    rw [insert_positions, testBit_foldl_setBit]
    by_cases hmem : i ∈ f.positions e
    · have : testBit (f.insert e).bits i = true := hset i hmem
      simp [this]
    · simp [hmem]

theorem insert_effects_witness :
    (newFilter 8 2 3 5).wf ∧
      ((newFilter 8 2 3 5).insert [7]).insertedCount =
        (newFilter 8 2 3 5).insertedCount + 1 :=
  ⟨by decide, (insert_effects (newFilter 8 2 3 5) (by decide) [7]).2.1⟩

/-- C7: deserialization of a buffer whose magic is mutated always fails
with `CorruptData` and yields no filter; a buffer too short to hold the
42-byte header (a partial write) never yields a filter either; and
whenever deserialization does yield a filter, the magic, header-length,
version and payload-length checks all passed — malformed input is never
silently replaced by a default or empty filter. -/
theorem deserialize_rejects_corrupt (bytes : List Nat) :
    (bytes.take 4 ≠ magicBytes → deserialize bytes = .error .corruptData) ∧
    (bytes.length < 42 → ∀ f, deserialize bytes ≠ .ok f) ∧
    (∀ f, deserialize bytes = .ok f →
      bytes.take 4 = magicBytes ∧
        42 ≤ bytes.length ∧
        readLEField bytes 4 2 ≤ formatVersion ∧
        (bytes.drop 42).length = (readLEField bytes 6 8 + 7) / 8) := by
  refine ⟨deserialize_bad_magic bytes, ?_,
    fun f h => deserialize_ok_shape bytes f h⟩
  intro hshort f h
  obtain ⟨-, h42, -, -⟩ := deserialize_ok_shape bytes f h
  omega

theorem deserialize_rejects_corrupt_witness :
    ((List.replicate 43 0).take 4 ≠ magicBytes ∧
      deserialize (List.replicate 43 0) = .error .corruptData) ∧
    (magicBytes.length < 42 ∧
      ∀ f, deserialize magicBytes ≠ .ok f) :=
  ⟨⟨by decide,
    (deserialize_rejects_corrupt (List.replicate 43 0)).1 (by decide)⟩,
   ⟨by decide,
    (deserialize_rejects_corrupt magicBytes).2.1 (by decide)⟩⟩

end BloomSpec

/-- C8: `deserialize_bloom_filter` in the DeepSeek script returns `None`
instead of raising when the underlying file read fails with an
`IOError`, printing only an error message to standard output. -/
theorem deepseek_deserialize_ioerror_returns_none (α : Type) (msg : String) :
    @DeepSeekModel.deserialize_bloom_filter α
      (DeepSeekModel.FileReadResult.ioError msg) =
      (none, ["Error deserializing Bloom filter: " ++ msg]) := rfl

/-- C9: `serialize_bloom_filter` in the Gemini script swallows write
failures — it returns the same value (`None`) whether the write
succeeded or raised, and the caller in `main` prints the success message
unconditionally afterwards. -/
theorem gemini_serialize_swallows_failure (w : GeminiModel.WriteResult) :
    (GeminiModel.serialize_bloom_filter w).fst =
      (GeminiModel.serialize_bloom_filter GeminiModel.WriteResult.ok).fst ∧
    (GeminiModel.mainSerializeStep w).snd.fst =
      ["Bloom filter serialized to: bloomfilter.bin"] := by
  cases w <;> exact ⟨rfl, rfl⟩

/-- C10: the false-positive probe keys `"element10000000" ++ repr tries`
for `tries < 1000000` are disjoint from the inserted keys
`"element" ++ repr i` for `1 ≤ i ≤ 10000000`, so every positive
`contains` answer counted in the probe loop is a genuine false
positive. -/
theorem probe_keys_disjoint (tries i : Nat) (ht : tries < 1000000)
    (hi1 : 1 ≤ i) (hi2 : i ≤ 10000000) :
    DemoModel.testKey tries ≠ DemoModel.insertedKey i := by
  intro h
  have hlen := congrArg String.length h
  rw [DemoModel.testKey, DemoModel.insertedKey, String.length_append,
    String.length_append] at hlen
  have h1 : 1 ≤ (Nat.repr tries).length := DemoModel.repr_len_pos tries
  have h2 : (Nat.repr i).length ≤ 8 :=
    Nat.repr_length i 8 (by norm_num) (by omega)
  have hL1 : ("element10000000" : String).length = 15 := rfl
  have hL2 : ("element" : String).length = 7 := rfl
  omega

theorem probe_keys_disjoint_witness :
    (0 : Nat) < 1000000 ∧ (1 : Nat) ≤ 1 ∧ (1 : Nat) ≤ 10000000 ∧
      DemoModel.testKey 0 ≠ DemoModel.insertedKey 1 :=
  ⟨by decide, by decide, by decide,
    probe_keys_disjoint 0 1 (by decide) (by decide) (by decide)⟩
